import Mathlib

/-!
Shallow embedding of `src/rpyc/core/async_.py` (class `AsyncResult`).

The Python object holds `_conn`, `_is_ready` (a threading `Event`),
`_is_exc`, `_obj`, `_callbacks` and `_ttl` (an `rpyc.lib.Timeout`).  We model
the object state as a record; the clock is an explicit `Nat` passed to the
operations that consult the deadline.  The external connection is modelled by
passing, at each call site that touches it, the completions it would dispatch
to this result (`serve` / `poll_all` are consumed only through those effects).

Callbacks (arbitrary Python callables) are abstracted by an identifier plus
their behaviour when invoked: return normally or raise; invoking a callback is
recorded in an invocation log so ordering claims can be stated.  Python
exceptions escaping an operation are modelled by an `Option Nat` error slot,
alongside the state mutations already performed before the raise.
-/

set_option autoImplicit false

namespace Rpyc

/-- A registered completion callback, abstracted by an identifier and its
behaviour when invoked: `err = none` means it returns normally,
`err = some e` means invoking it raises exception `e`. -/
structure CB where
  id : Nat
  err : Option Nat
  deriving Repr, DecidableEq

/-- Modelled from the spec: `rpyc.lib.Timeout` is not under `src/`.  The spec
describes the deadline as "an optional expiry point (relative timeout
converted to an absolute bound, or never)", with the `expired` query true iff
the deadline has passed.  We model the timeout as an optional absolute
deadline on a discrete clock; `none` means "never expires". -/
def ttlExpired (ttl : Option Nat) (now : Nat) : Bool :=
  match ttl with
  | none => false
  | some d => decide (d ≤ now)

/-- State of one `AsyncResult`.  `is_ready` models `_is_ready.is_set()`;
`is_exc` and `obj` model `_is_exc` and `_obj` (both `None` initially, hence
`Option`); `callbacks` models `_callbacks`; `ttl` models `_ttl` as an
optional absolute deadline.  The `_conn` back-reference is not stored: the
connection is an external collaborator whose effects are passed in
explicitly. -/
structure AsyncResult (α : Type) where
  is_ready : Bool
  is_exc : Option Bool
  obj : Option α
  callbacks : List CB
  ttl : Option Nat
  deriving Repr, DecidableEq

/-- Python `__init__`: not ready, `_is_exc = None`, `_obj = None`, empty
callback list, `_ttl = Timeout(None)`. -/
def mkAsyncResult (α : Type) : AsyncResult α :=
  ⟨false, none, none, [], none⟩

namespace AsyncResult

variable {α : Type}

/-- Python property `expired`: `not self._is_ready.is_set() and
self._ttl.expired()`. -/
def expired (s : AsyncResult α) (now : Nat) : Bool :=
  !s.is_ready && ttlExpired s.ttl now

/-- Observable events of one `complete` call, in program order.  `setEvent`
models `self._is_ready.set()`: the Python `Event.set()` both sets the flag
and releases every thread blocked on the event, atomically; there is no
separate waiter-release step in the code. -/
inductive CEvent where
  | store
  | setEvent
  | invoke (id : Nat)
  | clear
  deriving Repr, DecidableEq

/-- Run `for cb in callbacks: cb(self)`: invoke the callbacks in list order
until one raises.  Returns the log of invoked callback identifiers (the
raising one included, since it was invoked) and the raised exception, if
any. -/
def invokeAll : List CB → List Nat × Option Nat
  | [] => ([], none)
  | c :: rest =>
    match c.err with
    | some e => ([c.id], some e)
    | none =>
      let r := invokeAll rest
      (c.id :: r.1, r.2)

/-- Result of one `complete` (`__call__`) invocation: the state afterwards,
the log of callbacks invoked, the Python exception that escaped (if a
callback raised), and the trace of observable events. -/
structure CompleteResult (α : Type) where
  st : AsyncResult α
  log : List Nat
  exn : Option Nat
  trace : List CEvent
  deriving Repr, DecidableEq

/-- Python `__call__(is_exc, obj)`: `if self.expired: return`; otherwise
assign `_is_exc` and `_obj`, call `_is_ready.set()`, invoke each callback in
list order, then `del self._callbacks[:]`.  If a callback raises, the loop
aborts and the `del` statement is never reached, so the list keeps all its
elements; the assignments and the `set()` have already happened. -/
def call (s : AsyncResult α) (now : Nat) (is_exc : Bool) (o : α) :
    CompleteResult α :=
  if s.expired now then ⟨s, [], none, []⟩
  else
    let s1 : AsyncResult α :=
      { s with is_exc := some is_exc, obj := some o, is_ready := true }
    let r := invokeAll s.callbacks
    match r.2 with
    | some e =>
      ⟨s1, r.1, some e, CEvent.store :: CEvent.setEvent :: r.1.map CEvent.invoke⟩
    | none =>
      ⟨{ s1 with callbacks := [] }, r.1, none,
        CEvent.store :: CEvent.setEvent :: (r.1.map CEvent.invoke ++ [CEvent.clear])⟩

/-- Python `add_callback(func)`: if ready, invoke `func(self)` immediately
(it may raise); otherwise append it to the list.  Returns the new state, the
log of callbacks invoked during the call, and the exception that escaped, if
any. -/
def add_callback (s : AsyncResult α) (cb : CB) :
    AsyncResult α × List Nat × Option Nat :=
  if s.is_ready then (s, [cb.id], cb.err)
  else ({ s with callbacks := s.callbacks ++ [cb] }, [], none)

/-- Python `set_expiry(timeout)`: `self._ttl = Timeout(timeout)`.  Modelled
from the spec for `Timeout` itself: a relative timeout becomes the absolute
deadline `now + t`, and `None` becomes "never". -/
def set_expiry (s : AsyncResult α) (now : Nat) (timeout : Option Nat) :
    AsyncResult α :=
  { s with ttl := timeout.map (fun t => now + t) }

/-- One iteration of the environment inside `wait`: `self._conn.serve(ttl)`
processed a message or not (`processed`), the message may have dispatched a
completion to this very result (`compl`), and the clock afterwards reads
`time`. -/
structure Step (α : Type) where
  processed : Bool
  compl : Option (Bool × α)
  time : Nat
  deriving Repr, DecidableEq

/-- Outcome of `wait`: returned normally (`ok`), raised
`AsyncResultTimeout("result expired")` (`timeout`), a callback exception
escaped from `serve` (`cbexn`), or the call blocks with no further
environment steps to model (`blocked`, covering both an exhausted trace and
an `_is_ready.wait()` that is never signalled). -/
inductive WaitOutcome (α : Type) where
  | blocked (st : AsyncResult α)
  | cbexn (err : Nat) (st : AsyncResult α)
  | timeout (st : AsyncResult α) (t : Nat)
  | ok (st : AsyncResult α) (t : Nat)
  deriving Repr, DecidableEq

/-- Effect of one `self._conn.serve(self._ttl)` call on this result: if the
processed message was this result's reply, its dispatch goes through
`__call__`; otherwise the state is untouched. -/
def serveEffect (s : AsyncResult α) (step : Step α) : CompleteResult α :=
  match step.compl with
  | some (e, p) => call s step.time e p
  | none => ⟨s, [], none, []⟩

/-- Python `wait()`: `while not self._is_ready.is_set() and not
self._ttl.expired(): if self._conn.serve(self._ttl): self._is_ready.wait()`,
then `if not self._is_ready.is_set(): raise AsyncResultTimeout("result
expired")`.  The environment trace supplies each `serve` call's effect; a
`serve` that processed a message without making this result ready leaves the
code blocked in `self._is_ready.wait()`. -/
def wait_go (s : AsyncResult α) (now : Nat) :
    List (Step α) → WaitOutcome α
  | [] =>
    if s.is_ready then .ok s now
    else if ttlExpired s.ttl now then .timeout s now
    else .blocked s
  | step :: rest =>
    if s.is_ready then .ok s now
    else if ttlExpired s.ttl now then .timeout s now
    else
      match (serveEffect s step).exn with
      | some err => .cbexn err (serveEffect s step).st
      | none =>
        if step.processed && !(serveEffect s step).st.is_ready then
          .blocked (serveEffect s step).st
        else wait_go (serveEffect s step).st step.time rest

/-- Final state reached by a `wait` call, whatever its outcome. -/
def waitFinalState : WaitOutcome α → AsyncResult α
  | .blocked s => s
  | .cbexn _ s => s
  | .timeout s _ => s
  | .ok s _ => s

/-- Outcome of the `value` property: the payload returned (`ok`), the stored
exception object raised (`raised`), `AsyncResultTimeout` raised (`timeout`),
a callback exception escaped (`cbexn`), or blocked. -/
inductive ValueOutcome (α : Type) where
  | blocked
  | cbexn (err : Nat)
  | timeout
  | raised (o : Option α)
  | ok (o : Option α)
  deriving Repr, DecidableEq

/-- Python property `value`: `self.wait()`, then `if self._is_exc: raise
self._obj` else `return self._obj`.  In Python `if self._is_exc` is a
truthiness test, true exactly when the stored flag equals `True`. -/
def value (s : AsyncResult α) (now : Nat) (steps : List (Step α)) :
    ValueOutcome α :=
  match wait_go s now steps with
  | .blocked _ => .blocked
  | .cbexn e _ => .cbexn e
  | .timeout _ _ => .timeout
  | .ok s' _ => if s'.is_exc = some true then .raised s'.obj else .ok s'.obj

/-- Drain of buffered messages performed by `self._conn.poll_all()`: each
buffered completion addressed to this result goes through `__call__`; a
callback exception aborts the drain and escapes. -/
def poll_all (s : AsyncResult α) (now : Nat) :
    List (Bool × α) → AsyncResult α × Option Nat
  | [] => (s, none)
  | (e, p) :: rest =>
    let r := call s now e p
    match r.exn with
    | some err => (r.st, some err)
    | none => poll_all r.st now rest

/-- Result of the `ready` property: the boolean answer, the state afterwards,
whether `poll_all` was called on the connection, and a callback exception
that escaped the drain, if any. -/
structure ReadyResult (α : Type) where
  answer : Bool
  st : AsyncResult α
  polled : Bool
  exn : Option Nat
  deriving Repr, DecidableEq

/-- Python property `ready`: `if self._is_ready.is_set(): return True`;
`if self._ttl.expired(): return False`; `self._conn.poll_all()`;
`return self._is_ready.is_set()`.  The `msgs` argument lists the buffered
completions for this result that `poll_all` would dispatch. -/
def ready_q (s : AsyncResult α) (now : Nat) (msgs : List (Bool × α)) :
    ReadyResult α :=
  if s.is_ready then ⟨true, s, false, none⟩
  else if ttlExpired s.ttl now then ⟨false, s, false, none⟩
  else
    let r := poll_all s now msgs
    ⟨r.1.is_ready, r.1, true, r.2⟩

/-- Python property `error`: `return self.ready and self._is_exc`.  It goes
through the `ready` property, so it may poll. -/
def error_q (s : AsyncResult α) (now : Nat) (msgs : List (Bool × α)) :
    Bool × AsyncResult α :=
  let r := ready_q s now msgs
  (r.answer && r.st.is_exc.getD false, r.st)

/-- One operation on an `AsyncResult`, with the environment data (clock
readings, dispatched completions) it consumes. -/
inductive Op (α : Type) where
  | compl (now : Nat) (e : Bool) (p : α)
  | addCb (cb : CB)
  | setExp (now : Nat) (timeout : Option Nat)
  | waitO (now : Nat) (steps : List (Step α))
  | readyO (now : Nat) (msgs : List (Bool × α))
  | valueO (now : Nat) (steps : List (Step α))
  | errorO (now : Nat) (msgs : List (Bool × α))
  | expiredO (now : Nat)
  deriving Repr, DecidableEq

/-- State reached after one operation (outputs and raised exceptions are
dropped; the state mutations performed before a raise are kept, as in
Python). -/
def applyOp (s : AsyncResult α) : Op α → AsyncResult α
  | .compl now e p => (call s now e p).st
  | .addCb cb => (add_callback s cb).1
  | .setExp now t => set_expiry s now t
  | .waitO now steps => waitFinalState (wait_go s now steps)
  | .readyO now msgs => (ready_q s now msgs).st
  | .valueO now steps => waitFinalState (wait_go s now steps)
  | .errorO now msgs => (error_q s now msgs).2
  | .expiredO _ => s

/-- State reached after a sequence of operations. -/
def applyOps (s : AsyncResult α) : List (Op α) → AsyncResult α
  | [] => s
  | op :: rest => applyOps (applyOp s op) rest

/-- An operation is benign when any callback it registers returns normally
when invoked. -/
def benign : Op α → Bool
  | .addCb cb => cb.err.isNone
  | _ => true

/-- Invariant maintained by the benign operations: every registered callback
returns normally, and once the result is ready the callback list is empty. -/
def Inv (s : AsyncResult α) : Prop :=
  (∀ c ∈ s.callbacks, c.err = none) ∧ (s.is_ready = true → s.callbacks = [])

/-- Position of the first occurrence of event `e` in a trace. -/
def eventIdx (tr : List CEvent) (e : CEvent) : Option Nat :=
  tr.findIdx? (fun x => decide (x = e))

/-- Whether a completion trace releases the blocked waiters only after the
callback list is cleared, i.e. the waiter-releasing `Event.set()` occurs
strictly after the `clear` step. -/
def waiterReleaseAfterClear (tr : List CEvent) : Bool :=
  match eventIdx tr CEvent.clear, eventIdx tr CEvent.setEvent with
  | some i, some j => decide (i < j)
  | _, _ => false

end AsyncResult

/-! Shared lemmas about the embedded operations. -/

open AsyncResult

variable {α : Type}

theorem invokeAll_all_none {l : List CB} (h : ∀ c ∈ l, c.err = none) :
    invokeAll l = (l.map CB.id, none) := by
  induction l with
  | nil => rfl
  | cons c rest ih =>
    have hc : c.err = none := h c (by simp)
    have hrest : ∀ x ∈ rest, x.err = none := fun x hx => h x (by simp [hx])
    simp [invokeAll, hc, ih hrest]

theorem invokeAll_raise {pre post : List CB} {c : CB} {err : Nat}
    (hpre : ∀ x ∈ pre, x.err = none) (hc : c.err = some err) :
    invokeAll (pre ++ c :: post) = (pre.map CB.id ++ [c.id], some err) := by
  induction pre with
  | nil => simp [invokeAll, hc]
  | cons x rest ih =>
    have hx : x.err = none := hpre x (by simp)
    have hrest : ∀ y ∈ rest, y.err = none := fun y hy => hpre y (by simp [hy])
    simp [invokeAll, hx, ih hrest]

theorem ttlExpired_mono {ttl : Option Nat} {t t' : Nat}
    (h : ttlExpired ttl t = true) (hle : t ≤ t') : ttlExpired ttl t' = true := by
  cases ttl with
  | none => simp [ttlExpired] at h
  | some d =>
    simp [ttlExpired] at h ⊢
    omega

theorem call_of_expired {s : AsyncResult α} {now : Nat} (h : s.expired now = true)
    (e : Bool) (p : α) : call s now e p = ⟨s, [], none, []⟩ := by
  simp [call, h]

theorem call_st_of_not_expired {s : AsyncResult α} {now : Nat} {e : Bool} {p : α}
    (h : s.expired now = false) :
    (call s now e p).st.is_ready = true ∧
    (call s now e p).st.is_exc = some e ∧
    (call s now e p).st.obj = some p := by
  cases hx : (invokeAll s.callbacks).2 <;> simp [call, h, hx]

theorem call_of_clean {s : AsyncResult α} {now : Nat} (e : Bool) (p : α)
    (hne : s.expired now = false) (hcb : ∀ c ∈ s.callbacks, c.err = none) :
    call s now e p =
      ⟨{ s with is_exc := some e, obj := some p, is_ready := true, callbacks := [] },
        s.callbacks.map CB.id, none,
        CEvent.store :: CEvent.setEvent ::
          ((s.callbacks.map CB.id).map CEvent.invoke ++ [CEvent.clear])⟩ := by
  simp [call, hne, invokeAll_all_none hcb]

theorem call_ready_mono {s : AsyncResult α} {now : Nat} {e : Bool} {p : α}
    (h : s.is_ready = true) : (call s now e p).st.is_ready = true := by
  have hne : s.expired now = false := by simp [expired, h]
  exact (call_st_of_not_expired hne).1

/-- C1 counterexample: duplicate completion is NOT discarded.  `__call__`
only returns early when `self.expired` holds, and an already-ready result is
never expired, so a second `complete(c, d)` on a completed result overwrites
the stored outcome: after `complete(false, 1)` then `complete(true, 2)` the
stored outcome is `(true, 2)`, not `(false, 1)`. -/
theorem duplicate_complete_counterexample :
    (call (call (mkAsyncResult Nat) 0 false 1).st 0 true 2).st.is_exc = some true ∧
    (call (call (mkAsyncResult Nat) 0 false 1).st 0 true 2).st.obj = some 2 ∧
    ¬ ((call (call (mkAsyncResult Nat) 0 false 1).st 0 true 2).st.is_exc = some false ∧
      (call (call (mkAsyncResult Nat) 0 false 1).st 0 true 2).st.obj = some 1) := by
  decide

/-- C1 amended: a second `complete(c, d)` on an already-completed (pending,
unexpired at first completion; callbacks did not raise) result is not a
no-op — it silently overwrites the stored outcome with `(c, d)`.  No error
is reported and no callback runs, since the list was cleared by the first
completion. -/
theorem duplicate_complete_overwrites (s : AsyncResult α) (t1 t2 : Nat)
    (a c : Bool) (b d : α)
    (hr : s.is_ready = false) (he : ttlExpired s.ttl t1 = false)
    (hx : (call s t1 a b).exn = none) :
    (call (call s t1 a b).st t2 c d).st.is_exc = some c ∧
    (call (call s t1 a b).st t2 c d).st.obj = some d ∧
    (call (call s t1 a b).st t2 c d).log = [] ∧
    (call (call s t1 a b).st t2 c d).exn = none := by
  have hne : s.expired t1 = false := by simp [expired, hr, he]
  cases hinv : (invokeAll s.callbacks).2 with
  | some e => simp [call, hne, hinv] at hx
  | none =>
    have h1 : (call s t1 a b).st = ⟨true, some a, some b, [], s.ttl⟩ := by
      simp [call, hne, hinv]
    rw [h1]
    simp [call, expired, invokeAll]

/-- Witness for `duplicate_complete_overwrites` at a concrete input. -/
theorem duplicate_complete_overwrites_witness :
    (call (call (mkAsyncResult Nat) 3 false 1).st 5 true 2).st.is_exc = some true ∧
    (call (call (mkAsyncResult Nat) 3 false 1).st 5 true 2).st.obj = some 2 ∧
    (call (call (mkAsyncResult Nat) 3 false 1).st 5 true 2).log = [] ∧
    (call (call (mkAsyncResult Nat) 3 false 1).st 5 true 2).exn = none :=
  duplicate_complete_overwrites (mkAsyncResult Nat) 3 5 false true 1 2
    (by decide) (by decide) (by decide)

/-- C2 counterexample: the waiter release does not come last.  On a pending,
unexpired result with one registered callback, the completion trace is
`store, setEvent, invoke 0, clear`: the waiter-releasing `Event.set()`
(index 1) happens strictly before the callback invocation (index 2) and the
clear (index 3), refuting the claimed order "invoke callbacks, clear the
list, and only then release any waiters". -/
theorem complete_release_order_counterexample :
    (call { mkAsyncResult Nat with callbacks := [⟨0, none⟩] } 0 false 42).trace =
      [CEvent.store, CEvent.setEvent, CEvent.invoke 0, CEvent.clear] ∧
    waiterReleaseAfterClear
      (call { mkAsyncResult Nat with callbacks := [⟨0, none⟩] } 0 false 42).trace = false ∧
    eventIdx (call { mkAsyncResult Nat with callbacks := [⟨0, none⟩] } 0 false 42).trace
      CEvent.setEvent = some 1 ∧
    eventIdx (call { mkAsyncResult Nat with callbacks := [⟨0, none⟩] } 0 false 42).trace
      (CEvent.invoke 0) = some 2 := by
  decide

/-- C2 amended: for a pending, unexpired result whose registered callbacks
all return normally, `complete(isException, payload)` first stores
`isException` and `payload`, then sets ready true — the same `Event.set()`
that releases any waiters blocked in `wait`, so waiters are released before
the callbacks run — then synchronously invokes every registered callback in
registration order, then clears the callback list. -/
theorem complete_step_order (s : AsyncResult α) (now : Nat) (e : Bool) (p : α)
    (hr : s.is_ready = false) (he : ttlExpired s.ttl now = false)
    (hcb : ∀ c ∈ s.callbacks, c.err = none) :
    (call s now e p).st.is_exc = some e ∧
    (call s now e p).st.obj = some p ∧
    (call s now e p).st.is_ready = true ∧
    (call s now e p).log = s.callbacks.map CB.id ∧
    (call s now e p).st.callbacks = [] ∧
    (call s now e p).exn = none ∧
    (call s now e p).trace =
      CEvent.store :: CEvent.setEvent ::
        (s.callbacks.map (fun c => CEvent.invoke c.id) ++ [CEvent.clear]) := by
  have hne : s.expired now = false := by simp [expired, hr, he]
  rw [call_of_clean e p hne hcb]
  simp [List.map_map, Function.comp]

/-- Witness for `complete_step_order` at a concrete input. -/
theorem complete_step_order_witness :
    (call { mkAsyncResult Nat with callbacks := [⟨0, none⟩, ⟨1, none⟩] } 0 false 42).trace =
      CEvent.store :: CEvent.setEvent ::
        (({ mkAsyncResult Nat with
            callbacks := [⟨0, none⟩, ⟨1, none⟩] } : AsyncResult Nat).callbacks.map
              (fun c => CEvent.invoke c.id) ++ [CEvent.clear]) :=
  (complete_step_order { mkAsyncResult Nat with callbacks := [⟨0, none⟩, ⟨1, none⟩] }
    0 false 42 (by decide) (by decide) (by decide)).2.2.2.2.2.2

theorem wait_go_ready {s : AsyncResult α} (h : s.is_ready = true) (now : Nat)
    (steps : List (Step α)) : wait_go s now steps = .ok s now := by
  cases steps <;> simp [wait_go, h]

theorem wait_go_of_expired {s : AsyncResult α} {now : Nat}
    (hr : s.is_ready = false) (he : ttlExpired s.ttl now = true)
    (steps : List (Step α)) : wait_go s now steps = .timeout s now := by
  cases steps <;> simp [wait_go, hr, he]

/-- C3: `wait` raises `AsyncResultTimeout` iff the deadline elapses without
completion.  The loop runs while the result is not ready and the deadline
has not been reached; whenever `wait` ends by raising, the result is still
not ready and the deadline has passed at that moment, and whenever it
returns normally the result is ready. -/
theorem wait_timeout_iff_not_ready (s : AsyncResult α) (now : Nat)
    (steps : List (Step α)) :
    (∀ s' t', wait_go s now steps = .timeout s' t' →
      s'.is_ready = false ∧ ttlExpired s'.ttl t' = true) ∧
    (∀ s' t', wait_go s now steps = .ok s' t' → s'.is_ready = true) := by
  induction steps generalizing s now with
  | nil =>
    constructor
    · intro s' t' h
      cases h1 : s.is_ready with
      | true => simp [wait_go, h1] at h
      | false =>
        cases h2 : ttlExpired s.ttl now with
        | true =>
          simp [wait_go, h1, h2] at h
          obtain ⟨rfl, rfl⟩ := h
          exact ⟨h1, h2⟩
        | false => simp [wait_go, h1, h2] at h
    · intro s' t' h
      cases h1 : s.is_ready with
      | true =>
        simp [wait_go, h1] at h
        obtain ⟨rfl, rfl⟩ := h
        exact h1
      | false =>
        cases h2 : ttlExpired s.ttl now with
        | true => simp [wait_go, h1, h2] at h
        | false => simp [wait_go, h1, h2] at h
  | cons step rest ih =>
    constructor
    · intro s' t' h
      cases h1 : s.is_ready with
      | true => simp [wait_go, h1] at h
      | false =>
        cases h2 : ttlExpired s.ttl now with
        | true =>
          simp [wait_go, h1, h2] at h
          obtain ⟨rfl, rfl⟩ := h
          exact ⟨h1, h2⟩
        | false =>
          simp only [wait_go, h1, h2] at h
          simp at h
          cases hx : (serveEffect s step).exn with
          | some err => rw [hx] at h; simp at h
          | none =>
            rw [hx] at h
            by_cases h3 : step.processed = true ∧ (serveEffect s step).st.is_ready = false
            · simp [h3] at h
            · simp [h3] at h
              exact (ih _ _).1 s' t' h
    · intro s' t' h
      cases h1 : s.is_ready with
      | true =>
        simp [wait_go, h1] at h
        obtain ⟨rfl, rfl⟩ := h
        exact h1
      | false =>
        cases h2 : ttlExpired s.ttl now with
        | true => simp [wait_go, h1, h2] at h
        | false =>
          simp only [wait_go, h1, h2] at h
          simp at h
          cases hx : (serveEffect s step).exn with
          | some err => rw [hx] at h; simp at h
          | none =>
            rw [hx] at h
            by_cases h3 : step.processed = true ∧ (serveEffect s step).st.is_ready = false
            · simp [h3] at h
            · simp [h3] at h
              exact (ih _ _).2 s' t' h

/-- Witness for `wait_timeout_iff_not_ready` at a concrete input. -/
theorem wait_timeout_iff_not_ready_witness :
    ({ mkAsyncResult Nat with ttl := some 0 } : AsyncResult Nat).is_ready = false ∧
    ttlExpired ({ mkAsyncResult Nat with ttl := some 0 } : AsyncResult Nat).ttl 0 = true :=
  (wait_timeout_iff_not_ready { mkAsyncResult Nat with ttl := some 0 } 0 []).1
    { mkAsyncResult Nat with ttl := some 0 } 0 (by decide)

/-- C4: late completion after expiry is a no-op.  For a result that is not
ready and whose deadline has passed, `complete(e, p)` leaves the state
unchanged (and invokes no callback, raises nothing), and a later `value`
access still raises `AsyncResultTimeout` — both on the untouched state and
on the state returned by the late completion. -/
theorem late_complete_noop (s : AsyncResult α) (now t' : Nat) (e : Bool) (p : α)
    (steps : List (Step α))
    (hr : s.is_ready = false) (he : ttlExpired s.ttl now = true) (hle : now ≤ t') :
    call s now e p = ⟨s, [], none, []⟩ ∧
    value s t' steps = .timeout ∧
    value (call s now e p).st t' steps = .timeout := by
  have hexp : s.expired now = true := by simp [expired, hr, he]
  have he' : ttlExpired s.ttl t' = true := ttlExpired_mono he hle
  have h1 := call_of_expired hexp e p
  refine ⟨h1, ?_, ?_⟩
  · simp [value, wait_go_of_expired hr he' steps]
  · rw [h1]
    simp [value, wait_go_of_expired hr he' steps]

/-- Witness for `late_complete_noop` at a concrete input. -/
theorem late_complete_noop_witness :
    call { mkAsyncResult Nat with ttl := some 1 } 1 false 5 =
      ⟨{ mkAsyncResult Nat with ttl := some 1 }, [], none, []⟩ ∧
    value ({ mkAsyncResult Nat with ttl := some 1 } : AsyncResult Nat) 4 [] = .timeout ∧
    value (call { mkAsyncResult Nat with ttl := some 1 } 1 false 5).st 4 [] = .timeout :=
  late_complete_noop { mkAsyncResult Nat with ttl := some 1 } 1 4 false 5 []
    (by decide) (by decide) (by decide)

/-- C5: `value` goes through `wait` and propagates the exact stored outcome:
on a ready state holding payload `p` with exception flag `ex`, it raises the
stored payload when `ex` is true and returns it otherwise, and repeated
accesses (with any clock or environment) yield the identical outcome. -/
theorem value_propagates_outcome (s : AsyncResult α) (now now' : Nat)
    (steps steps' : List (Step α)) (p : α) (ex : Bool)
    (hr : s.is_ready = true) (ho : s.obj = some p) (hx : s.is_exc = some ex) :
    value s now steps =
      (if ex then ValueOutcome.raised (some p) else ValueOutcome.ok (some p)) ∧
    value s now' steps' = value s now steps := by
  have h1 : ∀ (t : Nat) (st : List (Step α)), value s t st =
      (if ex then ValueOutcome.raised (some p) else ValueOutcome.ok (some p)) := by
    intro t st
    simp [value, wait_go_ready hr, ho, hx]
  exact ⟨h1 now steps, by rw [h1, h1]⟩

/-- Witness for `value_propagates_outcome` at a concrete input. -/
theorem value_propagates_outcome_witness :
    value (⟨true, some true, some 7, [], none⟩ : AsyncResult Nat) 0 [] =
      (if true then ValueOutcome.raised (some 7) else ValueOutcome.ok (some 7)) ∧
    value (⟨true, some true, some 7, [], none⟩ : AsyncResult Nat) 9 [⟨true, none, 12⟩] =
      value (⟨true, some true, some 7, [], none⟩ : AsyncResult Nat) 0 [] :=
  value_propagates_outcome ⟨true, some true, some 7, [], none⟩ 0 9 [] [⟨true, none, 12⟩]
    7 true (by decide) (by decide) (by decide)

/-- C6: `add_callback` semantics.  On a ready result it invokes the callback
immediately and synchronously (the returned log records the invocation, and
the callback's own exception, if any, escapes) without appending it; on a
pending result it appends the callback, invoking nothing, and a later
completion (pending, unexpired, all callbacks well-behaved) invokes it
exactly once, after the previously registered callbacks, in registration
order. -/
theorem add_callback_spec (s : AsyncResult α) (cb : CB) (now : Nat) (e : Bool)
    (p : α) :
    (s.is_ready = true → add_callback s cb = (s, [cb.id], cb.err)) ∧
    (s.is_ready = false →
      (add_callback s cb).1 = { s with callbacks := s.callbacks ++ [cb] } ∧
      (add_callback s cb).2.1 = [] ∧
      (ttlExpired s.ttl now = false →
        (∀ c ∈ s.callbacks, c.err = none) → cb.err = none →
        (call (add_callback s cb).1 now e p).log =
          s.callbacks.map CB.id ++ [cb.id] ∧
        (call (add_callback s cb).1 now e p).log.count cb.id =
          (s.callbacks.map CB.id).count cb.id + 1)) := by
  constructor
  · intro h
    simp [add_callback, h]
  · intro h
    refine ⟨by simp [add_callback, h], by simp [add_callback, h], ?_⟩
    intro hexp hall hcb
    have h1 : (add_callback s cb).1 = { s with callbacks := s.callbacks ++ [cb] } := by
      simp [add_callback, h]
    rw [h1]
    have hall' : ∀ c ∈ s.callbacks ++ [cb], c.err = none := by
      intro c hc
      rcases List.mem_append.1 hc with hc | hc
      · exact hall c hc
      · simp at hc
        subst hc
        exact hcb
    have hne : ({ s with callbacks := s.callbacks ++ [cb] } : AsyncResult α).expired now = false := by
      simp [expired, h, hexp]
    rw [call_of_clean e p hne hall']
    constructor
    · simp
    · simp [List.count_append]

/-- Witness for `add_callback_spec` at concrete inputs covering both the
ready and the pending branch. -/
theorem add_callback_spec_witness :
    add_callback (⟨true, some false, some 3, [], none⟩ : AsyncResult Nat) ⟨5, none⟩ =
      (⟨true, some false, some 3, [], none⟩, [5], none) ∧
    (call (add_callback { mkAsyncResult Nat with callbacks := [⟨0, none⟩] } ⟨1, none⟩).1
        0 false 9).log =
      ({ mkAsyncResult Nat with callbacks := [⟨0, none⟩] } : AsyncResult Nat).callbacks.map
        CB.id ++ [1] :=
  ⟨(add_callback_spec ⟨true, some false, some 3, [], none⟩ ⟨5, none⟩ 0 false 9).1 (by decide),
   (((add_callback_spec { mkAsyncResult Nat with callbacks := [⟨0, none⟩] } ⟨1, none⟩
      0 false 9).2 (by decide)).2.2 (by decide) (by decide) (by decide)).1⟩

/-- C7: the `ready` property returns true immediately on a completed result;
on an uncompleted result whose deadline has passed it returns false without
touching the connection; otherwise it asks the connection to drain buffered
messages without blocking (`poll_all`) and re-reports the completion
state. -/
theorem ready_query_spec (s : AsyncResult α) (now : Nat) (msgs : List (Bool × α)) :
    (s.is_ready = true → ready_q s now msgs = ⟨true, s, false, none⟩) ∧
    (s.is_ready = false → ttlExpired s.ttl now = true →
      ready_q s now msgs = ⟨false, s, false, none⟩) ∧
    (s.is_ready = false → ttlExpired s.ttl now = false →
      (ready_q s now msgs).polled = true ∧
      (ready_q s now msgs).st = (poll_all s now msgs).1 ∧
      (ready_q s now msgs).answer = (poll_all s now msgs).1.is_ready) := by
  refine ⟨fun h => by simp [ready_q, h],
    fun h1 h2 => by simp [ready_q, h1, h2],
    fun h1 h2 => by simp [ready_q, h1, h2]⟩

/-- Witness for `ready_query_spec` at concrete inputs covering the three
branches. -/
theorem ready_query_spec_witness :
    ready_q (⟨true, some false, some 3, [], none⟩ : AsyncResult Nat) 0 [] =
      ⟨true, ⟨true, some false, some 3, [], none⟩, false, none⟩ ∧
    ready_q ({ mkAsyncResult Nat with ttl := some 0 } : AsyncResult Nat) 0 [(false, 4)] =
      ⟨false, { mkAsyncResult Nat with ttl := some 0 }, false, none⟩ ∧
    ((ready_q (mkAsyncResult Nat) 0 [(false, 4)]).polled = true ∧
      (ready_q (mkAsyncResult Nat) 0 [(false, 4)]).st =
        (poll_all (mkAsyncResult Nat) 0 [(false, 4)]).1 ∧
      (ready_q (mkAsyncResult Nat) 0 [(false, 4)]).answer =
        (poll_all (mkAsyncResult Nat) 0 [(false, 4)]).1.is_ready) :=
  ⟨(ready_query_spec ⟨true, some false, some 3, [], none⟩ 0 []).1 (by decide),
   (ready_query_spec { mkAsyncResult Nat with ttl := some 0 } 0 [(false, 4)]).2.1
     (by decide) (by decide),
   (ready_query_spec (mkAsyncResult Nat) 0 [(false, 4)]).2.2 (by decide) (by decide)⟩

/-- C9: a callback that raises during `complete` makes the exception escape
to the dispatch path, the callbacks after it are not invoked (the log stops
at the raising one), and the callback list is NOT cleared — while `ready`
has already been set and the payload stored. -/
theorem callback_raise_aborts_loop (s : AsyncResult α) (now : Nat) (e : Bool)
    (p : α) (pre post : List CB) (c : CB) (err : Nat)
    (hr : s.is_ready = false) (he : ttlExpired s.ttl now = false)
    (hcs : s.callbacks = pre ++ c :: post)
    (hpre : ∀ x ∈ pre, x.err = none) (hc : c.err = some err) :
    (call s now e p).exn = some err ∧
    (call s now e p).log = pre.map CB.id ++ [c.id] ∧
    (call s now e p).st.callbacks = s.callbacks ∧
    (call s now e p).st.is_ready = true ∧
    (call s now e p).st.is_exc = some e ∧
    (call s now e p).st.obj = some p := by
  have hne : s.expired now = false := by simp [expired, hr, he]
  have hinv : invokeAll s.callbacks = (pre.map CB.id ++ [c.id], some err) := by
    rw [hcs]
    exact invokeAll_raise hpre hc
  simp [call, hne, hinv]

/-- Witness for `callback_raise_aborts_loop` at a concrete input. -/
theorem callback_raise_aborts_loop_witness :
    (call { mkAsyncResult Nat with callbacks := [⟨0, none⟩, ⟨1, some 9⟩, ⟨2, none⟩] }
        0 true 4).exn = some 9 ∧
    (call { mkAsyncResult Nat with callbacks := [⟨0, none⟩, ⟨1, some 9⟩, ⟨2, none⟩] }
        0 true 4).log = ([⟨0, none⟩] : List CB).map CB.id ++ [1] ∧
    (call { mkAsyncResult Nat with callbacks := [⟨0, none⟩, ⟨1, some 9⟩, ⟨2, none⟩] }
        0 true 4).st.callbacks =
      ({ mkAsyncResult Nat with
          callbacks := [⟨0, none⟩, ⟨1, some 9⟩, ⟨2, none⟩] } : AsyncResult Nat).callbacks ∧
    (call { mkAsyncResult Nat with callbacks := [⟨0, none⟩, ⟨1, some 9⟩, ⟨2, none⟩] }
        0 true 4).st.is_ready = true ∧
    (call { mkAsyncResult Nat with callbacks := [⟨0, none⟩, ⟨1, some 9⟩, ⟨2, none⟩] }
        0 true 4).st.is_exc = some true ∧
    (call { mkAsyncResult Nat with callbacks := [⟨0, none⟩, ⟨1, some 9⟩, ⟨2, none⟩] }
        0 true 4).st.obj = some 4 :=
  callback_raise_aborts_loop
    { mkAsyncResult Nat with callbacks := [⟨0, none⟩, ⟨1, some 9⟩, ⟨2, none⟩] }
    0 true 4 [⟨0, none⟩] [⟨2, none⟩] ⟨1, some 9⟩ 9
    (by decide) (by decide) (by decide) (by decide) (by decide)

/-- C10: expiry is not permanent.  For a result that expired without
completing, `set_expiry(None)` replaces the deadline so that `expired` is
false again at every clock reading; a subsequent `complete(e, p)` then
stores the outcome and sets ready, and a later `value` returns or raises
that outcome instead of `AsyncResultTimeout`. -/
theorem unexpire_then_complete (s : AsyncResult α) (t0 t1 t2 t3 : Nat)
    (e : Bool) (p : α) (steps : List (Step α))
    (hr : s.is_ready = false) (he : ttlExpired s.ttl t0 = true) :
    s.expired t0 = true ∧
    (∀ t : Nat, (set_expiry s t1 none).expired t = false) ∧
    (call (set_expiry s t1 none) t2 e p).st.is_ready = true ∧
    (call (set_expiry s t1 none) t2 e p).st.is_exc = some e ∧
    (call (set_expiry s t1 none) t2 e p).st.obj = some p ∧
    value (call (set_expiry s t1 none) t2 e p).st t3 steps =
      (if e then ValueOutcome.raised (some p) else ValueOutcome.ok (some p)) := by
  have h0 : s.expired t0 = true := by simp [expired, hr, he]
  have hexp : ∀ t : Nat, (set_expiry s t1 none).expired t = false := by
    intro t
    simp [expired, set_expiry, ttlExpired]
  have hst : (call (set_expiry s t1 none) t2 e p).st.is_ready = true ∧
      (call (set_expiry s t1 none) t2 e p).st.is_exc = some e ∧
      (call (set_expiry s t1 none) t2 e p).st.obj = some p :=
    call_st_of_not_expired (hexp t2)
  refine ⟨h0, hexp, hst.1, hst.2.1, hst.2.2, ?_⟩
  simp [value, wait_go_ready hst.1, hst.2.1, hst.2.2]

/-- Witness for `unexpire_then_complete` at a concrete input. -/
theorem unexpire_then_complete_witness :
    ({ mkAsyncResult Nat with ttl := some 0 } : AsyncResult Nat).expired 0 = true ∧
    (set_expiry { mkAsyncResult Nat with ttl := some 0 } 1 none).expired 7 = false ∧
    (call (set_expiry { mkAsyncResult Nat with ttl := some 0 } 1 none) 2 true 5).st.is_ready = true ∧
    (call (set_expiry { mkAsyncResult Nat with ttl := some 0 } 1 none) 2 true 5).st.is_exc = some true ∧
    (call (set_expiry { mkAsyncResult Nat with ttl := some 0 } 1 none) 2 true 5).st.obj = some 5 ∧
    value (call (set_expiry { mkAsyncResult Nat with ttl := some 0 } 1 none) 2 true 5).st 3 [] =
      (if true then ValueOutcome.raised (some 5) else ValueOutcome.ok (some 5)) := by
  have H := unexpire_then_complete { mkAsyncResult Nat with ttl := some 0 } 0 1 2 3
    true 5 [] (by decide) (by decide)
  exact ⟨H.1, H.2.1 7, H.2.2.1, H.2.2.2.1, H.2.2.2.2.1, H.2.2.2.2.2⟩

theorem call_inv {s : AsyncResult α} (h : Inv s) (now : Nat) (e : Bool) (p : α) :
    Inv (call s now e p).st ∧ (call s now e p).exn = none := by
  by_cases hexp : s.expired now = true
  · rw [call_of_expired hexp]
    exact ⟨h, rfl⟩
  · have hne : s.expired now = false := by simpa using hexp
    rw [call_of_clean e p hne h.1]
    refine ⟨⟨fun c hc => by simp at hc, fun _ => rfl⟩, rfl⟩

theorem poll_all_inv {s : AsyncResult α} (h : Inv s) (now : Nat)
    (msgs : List (Bool × α)) : Inv (poll_all s now msgs).1 := by
  induction msgs generalizing s with
  | nil => exact h
  | cons m rest ih =>
    obtain ⟨e, p⟩ := m
    have hc := call_inv h now e p
    simp only [poll_all]
    rw [hc.2]
    exact ih hc.1

theorem serveEffect_inv {s : AsyncResult α} (h : Inv s) (step : Step α) :
    Inv (serveEffect s step).st ∧ (serveEffect s step).exn = none := by
  cases hc : step.compl with
  | none =>
    refine ⟨?_, ?_⟩ <;> simp [serveEffect, hc]
    exact h
  | some ep =>
    obtain ⟨e, p⟩ := ep
    have := call_inv h step.time e p
    refine ⟨?_, ?_⟩ <;> simp [serveEffect, hc]
    · exact this.1
    · exact this.2

theorem wait_go_nil_final {s : AsyncResult α} (now : Nat) :
    waitFinalState (wait_go s now []) = s := by
  simp only [wait_go]
  split
  · rfl
  · split <;> rfl

theorem wait_inv {s : AsyncResult α} (h : Inv s) (now : Nat)
    (steps : List (Step α)) :
    Inv (waitFinalState (wait_go s now steps)) := by
  induction steps generalizing s now with
  | nil => rw [wait_go_nil_final]; exact h
  | cons step rest ih =>
    by_cases h1 : s.is_ready = true
    · rw [wait_go_ready h1]
      exact h
    · have h1' : s.is_ready = false := by simpa using h1
      by_cases h2 : ttlExpired s.ttl now = true
      · rw [wait_go_of_expired h1' h2]
        exact h
      · have h2' : ttlExpired s.ttl now = false := by simpa using h2
        have hse := serveEffect_inv h step
        simp only [wait_go, h1', h2']
        simp only [Bool.false_eq_true, if_false]
        rw [hse.2]
        by_cases h3 : step.processed = true ∧ (serveEffect s step).st.is_ready = false
        · simp [h3, waitFinalState]
          exact hse.1
        · simp [h3]
          exact ih hse.1 step.time

theorem applyOp_ready_mono {s : AsyncResult α} (h : s.is_ready = true)
    (op : Op α) : (applyOp s op).is_ready = true := by
  cases op with
  | compl now e p => exact call_ready_mono h
  | addCb cb => simp [applyOp, add_callback, h]
  | setExp now t => simp [applyOp, set_expiry, h]
  | waitO now steps => rw [applyOp, wait_go_ready h]; exact h
  | readyO now msgs => simp [applyOp, ready_q, h]
  | valueO now steps => rw [applyOp, wait_go_ready h]; exact h
  | errorO now msgs => simp [applyOp, error_q, ready_q, h]
  | expiredO now => exact h

theorem applyOp_inv {s : AsyncResult α} {op : Op α} (hb : benign op = true)
    (h : Inv s) : Inv (applyOp s op) := by
  cases op with
  | compl now e p => exact (call_inv h now e p).1
  | addCb cb =>
    have hcb : cb.err = none := by
      simpa [benign, Option.isNone_iff_eq_none] using hb
    by_cases h1 : s.is_ready = true
    · simpa [applyOp, add_callback, h1] using h
    · have h1' : s.is_ready = false := by simpa using h1
      simp only [applyOp, add_callback, h1', Bool.false_eq_true, if_false]
      refine ⟨?_, ?_⟩
      · intro c hc
        have hc' : c ∈ s.callbacks ∨ c = cb := by simpa using hc
        rcases hc' with hc' | hc'
        · exact h.1 c hc'
        · subst hc'
          exact hcb
      · intro hready
        exact absurd hready (by simp)
  | setExp now t => exact ⟨h.1, h.2⟩
  | waitO now steps => exact wait_inv h now steps
  | readyO now msgs =>
    by_cases h1 : s.is_ready = true
    · simpa [applyOp, ready_q, h1] using h
    · by_cases h2 : ttlExpired s.ttl now = true
      · simpa [applyOp, ready_q, h1, h2] using h
      · simpa [applyOp, ready_q, h1, h2] using poll_all_inv h now msgs
  | valueO now steps => exact wait_inv h now steps
  | errorO now msgs =>
    by_cases h1 : s.is_ready = true
    · simpa [applyOp, error_q, ready_q, h1] using h
    · by_cases h2 : ttlExpired s.ttl now = true
      · simpa [applyOp, error_q, ready_q, h1, h2] using h
      · simpa [applyOp, error_q, ready_q, h1, h2] using poll_all_inv h now msgs
  | expiredO now => exact h

theorem applyOps_ready_mono {s : AsyncResult α} (h : s.is_ready = true)
    (ops : List (Op α)) : (applyOps s ops).is_ready = true := by
  induction ops generalizing s with
  | nil => exact h
  | cons op rest ih => exact ih (applyOp_ready_mono h op)

theorem applyOps_inv {s : AsyncResult α} (ops : List (Op α))
    (hb : ∀ op ∈ ops, benign op = true) (h : Inv s) : Inv (applyOps s ops) := by
  induction ops generalizing s with
  | nil => exact h
  | cons op rest ih =>
    exact ih (fun x hx => hb x (by simp [hx])) (applyOp_inv (hb op (by simp)) h)

/-- C8 counterexample: the callback-list part of the invariant fails when a
registered callback raises.  Register a raising callback on a fresh result,
then complete it: the completion sets `ready` (the first completion did
happen) but the raising callback aborts the loop before
`del self._callbacks[:]`, so the callback list is NOT empty after the first
completion. -/
theorem ready_invariant_counterexample :
    (applyOps (mkAsyncResult Nat)
      [Op.addCb ⟨0, some 7⟩, Op.compl 0 false 42]).is_ready = true ∧
    (applyOps (mkAsyncResult Nat)
      [Op.addCb ⟨0, some 7⟩, Op.compl 0 false 42]).callbacks ≠ [] := by
  decide

/-- C8 amended: under every sequence of operations, once `ready` is true it
never reverts to false; and provided every callback registered in the run
returns normally (and the initial state satisfies the same condition with
its list empty when already ready), the callback list is empty whenever the
result is ready — in particular it remains empty after the first
completion.  Without the no-raise proviso the callback-list part fails, as
`ready_invariant_counterexample` shows. -/
theorem ready_monotone_callbacks_inv (s : AsyncResult α) (ops : List (Op α)) :
    (s.is_ready = true → (applyOps s ops).is_ready = true) ∧
    ((∀ op ∈ ops, benign op = true) → Inv s →
      Inv (applyOps s ops) ∧
      ((applyOps s ops).is_ready = true → (applyOps s ops).callbacks = [])) := by
  constructor
  · intro h
    exact applyOps_ready_mono h ops
  · intro hb h
    have hi := applyOps_inv ops hb h
    exact ⟨hi, hi.2⟩

/-- Witness for `ready_monotone_callbacks_inv` at a concrete input: a
completed result, then a benign callback registration, an expiry reset and a
`ready` poll. -/
theorem ready_monotone_callbacks_inv_witness :
    (applyOps (call (mkAsyncResult Nat) 0 false 1).st
      ([Op.addCb ⟨2, none⟩, Op.setExp 3 (some 1), Op.readyO 4 []] :
        List (Op Nat))).is_ready = true ∧
    (applyOps (call (mkAsyncResult Nat) 0 false 1).st
      ([Op.addCb ⟨2, none⟩, Op.setExp 3 (some 1), Op.readyO 4 []] :
        List (Op Nat))).callbacks = [] := by
  have H := ready_monotone_callbacks_inv (call (mkAsyncResult Nat) 0 false 1).st
    ([Op.addCb ⟨2, none⟩, Op.setExp 3 (some 1), Op.readyO 4 []] : List (Op Nat))
  have h1 : ((call (mkAsyncResult Nat) 0 false 1).st).is_ready = true := by decide
  have hb : ∀ op ∈ ([Op.addCb ⟨2, none⟩, Op.setExp 3 (some 1), Op.readyO 4 []] :
      List (Op Nat)), benign op = true := by decide
  have hInv : Inv (call (mkAsyncResult Nat) 0 false 1).st := by
    constructor <;> decide
  exact ⟨H.1 h1, (H.2 hb hInv).2 (H.1 h1)⟩

end Rpyc
